import Mathlib

/-!
Verification development for the HiveDB server (Python source under review).

The Python source is shallowly embedded: pure fragments become Lean
functions, stateful fragments pass explicit state, wall-clock time and
randomness become explicit parameters.  Machine specifics:

* Python `sorted` is a stable sort (Timsort).  It is embedded as the
  insertion sort `isortLe` below; a stable sort over a total preorder is
  unique (theorem `stable_sort_unique`), so any stable sort is a faithful
  model of any other.
* JSON / Python values are embedded as `PyVal` (string, int, bool, None,
  one level of dict / list nesting, NaN), which covers every shape the
  embedded code inspects.  Numbers are embedded as `Int`; the code under
  review never produces non-integer numbers on the paths modelled here,
  except where noted in doc comments.
* Python comparisons between values of different types raise `TypeError`;
  where the embedded code sorts by such comparisons the order is totalized
  by a type rank (doc comment at `pyValKey`).  All concrete inputs used
  in counterexamples and witnesses compare same-typed values, where the
  embedding agrees with Python exactly.
-/

namespace HiveDB

/-! ### Generic stable-sort theory

`isortLe` is the stable insertion sort used to embed Python `sorted`.
The lemmas below (permutation, sortedness, the tie-class filter law, and
uniqueness of stable sorting) are the toolkit used to settle the claims
about the query evaluator sort pipeline. -/

def insLe (le : α → α → Bool) (x : α) : List α → List α
  | [] => [x]
  | y :: ys => if le x y then x :: y :: ys else y :: insLe le x ys

def isortLe (le : α → α → Bool) : List α → List α
  | [] => []
  | x :: xs => insLe le x (isortLe le xs)

/-- `le` is total as a Boolean relation. -/
def IsTotalB (le : α → α → Bool) : Prop := ∀ a b, le a b = true ∨ le b a = true

/-- `le` is transitive as a Boolean relation. -/
def IsTransB (le : α → α → Bool) : Prop :=
  ∀ a b c, le a b = true → le b c = true → le a c = true

/-- The tie class of `x`: elements equivalent to `x` under the preorder. -/
def tieWith (le : α → α → Bool) (x y : α) : Bool := le x y && le y x

theorem insLe_perm (le : α → α → Bool) (x : α) :
    ∀ l : List α, List.Perm (insLe le x l) (x :: l)
  | [] => List.Perm.refl _
  | y :: ys => by
    simp only [insLe]
    split
    · exact List.Perm.refl _
    · exact ((insLe_perm le x ys).cons y).trans (List.Perm.swap x y ys)

theorem isortLe_perm (le : α → α → Bool) : ∀ l : List α, List.Perm (isortLe le l) l
  | [] => List.Perm.refl _
  | x :: xs => (insLe_perm le x (isortLe le xs)).trans ((isortLe_perm le xs).cons x)

theorem mem_isortLe (le : α → α → Bool) (l : List α) (y : α) :
    y ∈ isortLe le l ↔ y ∈ l :=
  (isortLe_perm le l).mem_iff

theorem mem_insLe (le : α → α → Bool) (x : α) (l : List α) (y : α) :
    y ∈ insLe le x l ↔ y = x ∨ y ∈ l := by
  rw [(insLe_perm le x l).mem_iff, List.mem_cons]

theorem insLe_sorted (le : α → α → Bool) (htot : IsTotalB le) (htrans : IsTransB le)
    (x : α) : ∀ l : List α, l.Pairwise (fun a b => le a b = true) →
    (insLe le x l).Pairwise (fun a b => le a b = true)
  | [], _ => List.pairwise_singleton _ x
  | y :: ys, hs => by
    simp only [insLe]
    rcases List.pairwise_cons.mp hs with ⟨hy, hys⟩
    split
    · refine List.pairwise_cons.mpr ⟨?_, hs⟩
      intro z hz
      rcases List.mem_cons.mp hz with rfl | hz
      · assumption
      · exact htrans x y z (by assumption) (hy z hz)
    · refine List.pairwise_cons.mpr ⟨?_, insLe_sorted le htot htrans x ys hys⟩
      intro z hz
      rcases (mem_insLe le x ys z).mp hz with rfl | hz
      · rcases htot z y with h | h
        · exact absurd h (by assumption)
        · exact h
      · exact hy z hz

theorem isortLe_sorted (le : α → α → Bool) (htot : IsTotalB le) (htrans : IsTransB le) :
    ∀ l : List α, (isortLe le l).Pairwise (fun a b => le a b = true)
  | [] => List.Pairwise.nil
  | x :: xs => insLe_sorted le htot htrans x _ (isortLe_sorted le htot htrans xs)

theorem filter_insLe_pos (le : α → α → Bool) (p : α → Bool) (x : α)
    (hx : p x = true) :
    ∀ l : List α, (∀ b ∈ l, p b = true → le x b = true) →
    (insLe le x l).filter p = x :: l.filter p
  | [], _ => by simp [insLe, hx]
  | y :: ys, hmin => by
    simp only [insLe]
    split
    · simp [List.filter_cons, hx]
    · have hpy : p y = false := by
        cases h : p y
        · rfl
        · exact absurd (hmin y (List.mem_cons_self y ys) h) (by assumption)
      have ih := filter_insLe_pos le p x hx ys
        (fun b hb => hmin b (List.mem_cons_of_mem y hb))
      simp [List.filter_cons, hpy, ih]

theorem filter_insLe_neg (le : α → α → Bool) (p : α → Bool) (x : α)
    (hx : p x = false) :
    ∀ l : List α, (insLe le x l).filter p = l.filter p
  | [] => by simp [insLe, hx]
  | y :: ys => by
    simp only [insLe]
    split
    · simp [List.filter_cons, hx]
    · simp [List.filter_cons, filter_insLe_neg le p x hx ys]

theorem filter_isortLe (le : α → α → Bool) (p : α → Bool)
    (hcls : ∀ a b, p a = true → p b = true → le a b = true) :
    ∀ l : List α, (isortLe le l).filter p = l.filter p
  | [] => rfl
  | a :: t => by
    simp only [isortLe]
    cases ha : p a
    · rw [filter_insLe_neg le p a ha, filter_isortLe le p hcls t]
      simp [List.filter_cons, ha]
    · rw [filter_insLe_pos le p a ha _
        (fun b _ hb => hcls a b ha hb), filter_isortLe le p hcls t]
      simp [List.filter_cons, ha]

theorem stable_sort_unique (le : α → α → Bool) (htot : IsTotalB le) :
    ∀ (l1 l2 : List α), List.Perm l1 l2 →
    l1.Pairwise (fun a b => le a b = true) →
    l2.Pairwise (fun a b => le a b = true) →
    (∀ x, l1.filter (tieWith le x) = l2.filter (tieWith le x)) →
    l1 = l2
  | [], l2, hp, _, _, _ => (hp.symm.eq_nil).symm
  | a :: t1, [], hp, _, _, _ => absurd hp.eq_nil (by simp)
  | a :: t1, b :: t2, hp, hs1, hs2, hf => by
    have hba : b = a ∨ b ∈ t1 :=
      List.mem_cons.mp (hp.symm.subset (List.mem_cons_self b t2))
    have hab : a = b ∨ a ∈ t2 :=
      List.mem_cons.mp (hp.subset (List.mem_cons_self a t1))
    have hrefl : le a a = true := by rcases htot a a with h | h <;> exact h
    have hleab : le a b = true := by
      rcases hba with rfl | hb
      · exact hrefl
      · exact (List.rel_of_pairwise_cons hs1) hb
    have hleba : le b a = true := by
      rcases hab with rfl | ha
      · exact hrefl
      · exact (List.rel_of_pairwise_cons hs2) ha
    have htie : tieWith le a b = true := by simp [tieWith, hleab, hleba]
    have hfa := hf a
    rw [List.filter_cons, List.filter_cons] at hfa
    rw [if_pos (by simp [tieWith, hrefl]), if_pos htie] at hfa
    injection hfa with hhead _
    subst hhead
    have htails : t1 = t2 := by
      refine stable_sort_unique le htot t1 t2 hp.cons_inv hs1.of_cons hs2.of_cons ?_
      intro x
      have hfx := hf x
      rw [List.filter_cons, List.filter_cons] at hfx
      cases h : tieWith le x a <;> rw [h] at hfx <;> simp at hfx <;>
        exact hfx
    rw [htails]

/-! ### Lexicographic combination of Boolean preorders -/

/-- Compare by `le1` first and break `le1`-ties by `le2`. -/
def lexComb (le1 le2 : α → α → Bool) (x y : α) : Bool :=
  if le1 x y && le1 y x then le2 x y else le1 x y

theorem lexComb_total (le1 le2 : α → α → Bool) (h1 : IsTotalB le1)
    (h2 : IsTotalB le2) : IsTotalB (lexComb le1 le2) := by
  intro a b
  simp only [lexComb]
  cases t1 : le1 a b with
  | true =>
    cases t2 : le1 b a with
    | true => simpa [t1, t2] using h2 a b
    | false => left; simp [t1, t2]
  | false =>
    cases t2 : le1 b a with
    | true => right; simp [t1, t2]
    | false =>
      rcases h1 a b with h | h
      · exact absurd h (by simp [t1])
      · exact absurd h (by simp [t2])

theorem lexComb_trans (le1 le2 : α → α → Bool) (ht1 : IsTransB le1)
    (ht2 : IsTransB le2) : IsTransB (lexComb le1 le2) := by
  intro a b c hab hbc
  simp only [lexComb] at hab hbc ⊢
  have hab1 : le1 a b = true := by
    by_cases h : (le1 a b && le1 b a) = true
    · exact (Bool.and_eq_true_iff.mp h).1
    · rwa [if_neg h] at hab
  have hbc1 : le1 b c = true := by
    by_cases h : (le1 b c && le1 c b) = true
    · exact (Bool.and_eq_true_iff.mp h).1
    · rwa [if_neg h] at hbc
  have hac1 : le1 a c = true := ht1 a b c hab1 hbc1
  by_cases hca1 : le1 c a = true
  · have hcb1 : le1 c b = true := ht1 c a b hca1 hab1
    have hba1 : le1 b a = true := ht1 b c a hbc1 hca1
    rw [if_pos (by simp [hab1, hba1])] at hab
    rw [if_pos (by simp [hbc1, hcb1])] at hbc
    rw [if_pos (by simp [hac1, hca1])]
    exact ht2 a b c hab hbc
  · have hca0 : le1 c a = false := by
      cases h : le1 c a
      · rfl
      · exact absurd h hca1
    rw [if_neg (by simp [hca0])]
    exact hac1

theorem tieWith_lexComb (le1 le2 : α → α → Bool) (x y : α) :
    tieWith (lexComb le1 le2) x y =
      (tieWith le1 x y && tieWith le2 x y) := by
  simp only [tieWith, lexComb]
  cases h1 : le1 x y <;> cases h2 : le1 y x <;>
    simp [h1, h2, Bool.and_comm]

theorem insLe_congr (le1 le2 : α → α → Bool) (x : α) :
    ∀ l : List α, (∀ y ∈ l, le1 x y = le2 x y) → insLe le1 x l = insLe le2 x l
  | [], _ => rfl
  | y :: ys, h => by
    simp only [insLe]
    rw [h y (List.mem_cons_self y ys)]
    split
    · rfl
    · rw [insLe_congr le1 le2 x ys (fun z hz => h z (List.mem_cons_of_mem y hz))]

theorem isortLe_lexComb_of_sorted (le1 le2 : α → α → Bool) :
    ∀ l : List α, l.Pairwise (fun a b => le2 a b = true) →
    isortLe le1 l = isortLe (lexComb le1 le2) l
  | [], _ => rfl
  | a :: t, hs => by
    simp only [isortLe]
    rcases List.pairwise_cons.mp hs with ⟨ha, hts⟩
    rw [isortLe_lexComb_of_sorted le1 le2 t hts]
    refine insLe_congr le1 (lexComb le1 le2) a _ ?_
    intro y hy
    have hyt : y ∈ t := (mem_isortLe (lexComb le1 le2) t y).mp hy
    have h2 : le2 a y = true := ha y hyt
    simp only [lexComb]
    cases h : (le1 a y && le1 y a)
    · simp
    · simp only [Bool.and_eq_true] at h
      simp [h.1, h2]

theorem isortLe_lexComb_isortLe (le1 le2 : α → α → Bool)
    (ht1 : IsTotalB le1) (htr1 : IsTransB le1)
    (ht2 : IsTotalB le2) (htr2 : IsTransB le2) (l : List α) :
    isortLe (lexComb le1 le2) (isortLe le2 l) = isortLe (lexComb le1 le2) l := by
  have htot : IsTotalB (lexComb le1 le2) := lexComb_total le1 le2 ht1 ht2
  have htrans : IsTransB (lexComb le1 le2) := lexComb_trans le1 le2 htr1 htr2
  have hperm : List.Perm (isortLe (lexComb le1 le2) (isortLe le2 l))
      (isortLe (lexComb le1 le2) l) :=
    ((isortLe_perm _ _).trans (isortLe_perm _ _)).trans (isortLe_perm _ _).symm
  refine stable_sort_unique (lexComb le1 le2) htot _ _ hperm
    (isortLe_sorted _ htot htrans _) (isortLe_sorted _ htot htrans _) ?_
  intro x
  have hclsLex : ∀ a b, tieWith (lexComb le1 le2) x a = true →
      tieWith (lexComb le1 le2) x b = true → lexComb le1 le2 a b = true := by
    intro a b ha hb
    simp only [tieWith, Bool.and_eq_true] at ha hb
    exact htrans a x b ha.2 hb.1
  have hcls2 : ∀ a b, tieWith (lexComb le1 le2) x a = true →
      tieWith (lexComb le1 le2) x b = true → le2 a b = true := by
    intro a b ha hb
    rw [tieWith_lexComb, Bool.and_eq_true] at ha hb
    have h2a := ha.2
    have h2b := hb.2
    simp only [tieWith, Bool.and_eq_true] at h2a h2b
    exact htr2 a x b h2a.2 h2b.1
  rw [filter_isortLe _ _ hclsLex, filter_isortLe _ _ hclsLex,
    filter_isortLe _ _ hcls2]

theorem isortLe_true (l : List α) : isortLe (fun _ _ => true) l = l := by
  induction l with
  | nil => rfl
  | cons a t ih =>
    simp only [isortLe, ih]
    cases t <;> simp [insLe]

/-! ### Python / JSON values

`Scalar` and `PyVal` embed the dynamically typed values handled by the
server: JSON leaves plus one level of dict / list nesting, which covers
every inspection performed by the embedded code.  `PyVal.nan` stands for
the float NaN that the pandas backend materializes for missing cells. -/

inductive Scalar
  | str (v : String)
  | int (v : Int)
  | bool (v : Bool)
  | null
deriving DecidableEq, Repr

inductive PyVal
  | prim (v : Scalar)
  | dictV (entries : List (String × Scalar))
  | listV (xs : List Scalar)
  | nan
deriving DecidableEq, Repr

/-- An item / row: a Python dict with string keys in insertion order. -/
abbrev Row := List (String × PyVal)

/-- `row.get(field)` / `field in row` on a Python dict. -/
def rowGet (row : Row) (f : String) : Option PyVal := List.lookup f row

/-! ### Character-level string order

Lean `String.le` does not reduce in the kernel, so the lexicographic
order used by Python string comparison is embedded on the char lists. -/

def chListLe : List Char → List Char → Bool
  | [], _ => true
  | _ :: _, [] => false
  | a :: as, b :: bs =>
    if a.toNat < b.toNat then true
    else if b.toNat < a.toNat then false
    else chListLe as bs

theorem chListLe_total : ∀ x y, chListLe x y = true ∨ chListLe y x = true
  | [], _ => Or.inl rfl
  | _ :: _, [] => Or.inr rfl
  | a :: as, b :: bs => by
    simp only [chListLe]
    by_cases h1 : a.toNat < b.toNat
    · left; simp [h1]
    · by_cases h2 : b.toNat < a.toNat
      · right; simp [h2]
      · rcases chListLe_total as bs with h | h
        · left; simp [h1, h2, h]
        · right; simp [h1, h2, h]

theorem chListLe_trans : ∀ x y z, chListLe x y = true → chListLe y z = true →
    chListLe x z = true
  | [], _, _, _, _ => rfl
  | _ :: _, [], _, h1, _ => by simp [chListLe] at h1
  | _ :: _, _ :: _, [], _, h2 => by simp [chListLe] at h2
  | a :: as, b :: bs, c :: cs, h1, h2 => by
    simp only [chListLe] at h1 h2 ⊢
    by_cases hab : a.toNat < b.toNat <;> by_cases hbc : b.toNat < c.toNat
    · simp [show a.toNat < c.toNat by omega]
    · by_cases hcb : c.toNat < b.toNat
      · simp [hbc, hcb] at h2
      · simp [show a.toNat < c.toNat by omega]
    · by_cases hba : b.toNat < a.toNat
      · simp [hab, hba] at h1
      · simp [show a.toNat < c.toNat by omega]
    · by_cases hba : b.toNat < a.toNat
      · simp [hab, hba] at h1
      · by_cases hcb : c.toNat < b.toNat
        · simp [hbc, hcb] at h2
        · have hac : ¬ a.toNat < c.toNat := by omega
          have hca : ¬ c.toNat < a.toNat := by omega
          simp [hab, hba] at h1
          simp [hbc, hcb] at h2
          simp [hac, hca]
          exact chListLe_trans as bs cs h1 h2

/-! ### The totalized value order used by the sort pipeline

Python `sorted` compares keys with `<`; comparisons across types raise
`TypeError`.  The embedding totalizes the order through `pyValKey`:
a type rank, then a numeric payload, then a string payload.  Booleans get
the same rank as ints with payload 0 / 1, matching `False < True < 2` and
`True == 1` in Python.  Values Python refuses to compare (None, dicts,
NaN; lists are compared elementwise by Python but only scalar sort keys
occur in this system) are mutually tied inside their rank. -/

def scalarKey : Scalar → Nat × Int × List Char
  | .null => (0, 0, [])
  | .bool b => (2, if b then 1 else 0, [])
  | .int n => (2, n, [])
  | .str s => (3, 0, s.data)

def pyValKey : PyVal → Nat × Int × List Char
  | .prim sc => scalarKey sc
  | .dictV _ => (4, 0, [])
  | .listV _ => (5, 0, [])
  | .nan => (6, 0, [])

def natLeP (x y : Nat × Int × List Char) : Bool := decide (x.1 ≤ y.1)

def intLeP (x y : Nat × Int × List Char) : Bool := decide (x.2.1 ≤ y.2.1)

def chLeP (x y : Nat × Int × List Char) : Bool := chListLe x.2.2 y.2.2

def keyLe : Nat × Int × List Char → Nat × Int × List Char → Bool :=
  lexComb natLeP (lexComb intLeP chLeP)

theorem natLeP_total : IsTotalB natLeP := by
  intro a b
  simp only [natLeP, decide_eq_true_eq]
  omega

theorem natLeP_trans : IsTransB natLeP := by
  intro a b c h1 h2
  simp only [natLeP, decide_eq_true_eq] at *
  omega

theorem intLeP_total : IsTotalB intLeP := by
  intro a b
  simp only [intLeP, decide_eq_true_eq]
  omega

theorem intLeP_trans : IsTransB intLeP := by
  intro a b c h1 h2
  simp only [intLeP, decide_eq_true_eq] at *
  omega

theorem chLeP_total : IsTotalB chLeP := fun a b => chListLe_total a.2.2 b.2.2

theorem chLeP_trans : IsTransB chLeP := fun a b c h1 h2 =>
  chListLe_trans a.2.2 b.2.2 c.2.2 h1 h2

theorem keyLe_total : IsTotalB keyLe :=
  lexComb_total _ _ natLeP_total (lexComb_total _ _ intLeP_total chLeP_total)

theorem keyLe_trans : IsTransB keyLe :=
  lexComb_trans _ _ natLeP_trans (lexComb_trans _ _ intLeP_trans chLeP_trans)

/-- Python `x <= y` on values (totalized across types, see `pyValKey`). -/
def pyLeB (x y : PyVal) : Bool := keyLe (pyValKey x) (pyValKey y)

theorem pyLeB_total : ∀ a b, pyLeB a b = true ∨ pyLeB b a = true := fun a b =>
  keyLe_total (pyValKey a) (pyValKey b)

theorem pyLeB_trans : ∀ a b c, pyLeB a b = true → pyLeB b c = true →
    pyLeB a c = true := fun a b c h1 h2 =>
  keyLe_trans (pyValKey a) (pyValKey b) (pyValKey c) h1 h2

/-! ### QueryOptimizer: the standard Python evaluator

Embeds `QueryOptimizer._execute_standard_query` together with
`_apply_filters`, `_match_filters`, `_apply_sorting` from
`src/server/services/query_optimizer/optimizer.py`. -/

/-- Python `x == y` for the values compared by filters.  Matches Python
semantics: bools compare numerically with ints, NaN is unequal to
everything, lists compare elementwise.  (Python dict equality ignores
insertion order; the embedding compares entry lists structurally, which
agrees on the dicts produced by this code base.) -/
def scalarEqB : Scalar → Scalar → Bool
  | .int a, .int b => a == b
  | .bool a, .bool b => a == b
  | .int a, .bool b => a == (if b then 1 else 0)
  | .bool a, .int b => (if a then 1 else 0) == b
  | .str a, .str b => a == b
  | .null, .null => true
  | _, _ => false

def pyEqB : PyVal → PyVal → Bool
  | .prim a, .prim b => scalarEqB a b
  | .dictV a, .dictV b => a == b
  | .listV a, .listV b =>
    a.length == b.length && (a.zip b).all (fun p => scalarEqB p.1 p.2)
  | _, _ => false

/-- Whether the string starts with the given character (char-level model of
`str.startswith`, which does not reduce in the kernel via `String`). -/
def strStarts (f : String) (c : Char) : Bool :=
  match f.data with
  | [] => false
  | a :: _ => a == c

/-- `field[1:]`. -/
def strTail (f : String) : String := String.mk (f.data.drop 1)

/-- The sort key of one pass: `x.get(field, None)` — a missing field
sorts as Python `None` would. -/
def sortKeyOf (row : Row) (f : String) : PyVal :=
  (rowGet row f).getD (.prim .null)

/-- One pass of `QueryOptimizer._apply_sorting`: parses one leading
`-` (descending) or `+` (ascending) and compares the keys.  Python
`sorted(..., reverse=True)` keeps ties in input order, which is exactly
sorting by the flipped comparison with a stable sort. -/
def fieldLeOf (field : String) : Row → Row → Bool :=
  if strStarts field '-' then
    fun x y => pyLeB (sortKeyOf y (strTail field)) (sortKeyOf x (strTail field))
  else if strStarts field '+' then
    fun x y => pyLeB (sortKeyOf x (strTail field)) (sortKeyOf y (strTail field))
  else
    fun x y => pyLeB (sortKeyOf x field) (sortKeyOf y field)

/-- `QueryOptimizer._apply_sorting`: one stable sort per field, iterating
over `reversed(sort_fields)`. -/
def applySorting (data : List Row) (sortFields : List String) : List Row :=
  sortFields.reverse.foldl (fun d f => isortLe (fieldLeOf f) d) data

/-- The lexicographic order with the FIRST listed field as primary key. -/
def lexLeFields : List String → Row → Row → Bool
  | [] => fun _ _ => true
  | f :: fs => lexComb (fieldLeOf f) (lexLeFields fs)

theorem fieldLeOf_total (f : String) : IsTotalB (fieldLeOf f) := by
  intro a b
  by_cases hneg : strStarts f '-' = true
  · simp only [fieldLeOf, if_pos hneg]
    exact (pyLeB_total _ _).symm
  · by_cases hpos : strStarts f '+' = true
    · simp only [fieldLeOf, if_neg hneg, if_pos hpos]
      exact pyLeB_total _ _
    · simp only [fieldLeOf, if_neg hneg, if_neg hpos]
      exact pyLeB_total _ _

theorem fieldLeOf_trans (f : String) : IsTransB (fieldLeOf f) := by
  intro a b c h1 h2
  by_cases hneg : strStarts f '-' = true
  · simp only [fieldLeOf, if_pos hneg] at h1 h2 ⊢
    exact pyLeB_trans _ _ _ h2 h1
  · by_cases hpos : strStarts f '+' = true
    · simp only [fieldLeOf, if_neg hneg, if_pos hpos] at h1 h2 ⊢
      exact pyLeB_trans _ _ _ h1 h2
    · simp only [fieldLeOf, if_neg hneg, if_neg hpos] at h1 h2 ⊢
      exact pyLeB_trans _ _ _ h1 h2

theorem lexLeFields_total : ∀ fs, IsTotalB (lexLeFields fs)
  | [] => fun _ _ => Or.inl rfl
  | f :: fs => lexComb_total _ _ (fieldLeOf_total f) (lexLeFields_total fs)

theorem lexLeFields_trans : ∀ fs, IsTransB (lexLeFields fs)
  | [] => fun _ _ _ _ _ => rfl
  | f :: fs => lexComb_trans _ _ (fieldLeOf_trans f) (lexLeFields_trans fs)

/-- The composition law: the right-to-left pipeline of stable one-field
sorts equals a single stable sort by the lexicographic order whose
primary key is the FIRST listed field. -/
theorem applySorting_eq_lexSort (data : List Row) :
    ∀ fields, applySorting data fields = isortLe (lexLeFields fields) data := by
  intro fields
  induction fields generalizing data with
  | nil => simp [applySorting, lexLeFields, isortLe_true]
  | cons f fs ih =>
    have hstep : applySorting data (f :: fs) =
        isortLe (fieldLeOf f) (applySorting data fs) := by
      simp [applySorting, List.reverse_cons, List.foldl_append]
    rw [hstep, ih]
    rw [isortLe_lexComb_of_sorted (fieldLeOf f) (lexLeFields fs) _
      (isortLe_sorted _ (lexLeFields_total fs) (lexLeFields_trans fs) _)]
    rw [isortLe_lexComb_isortLe (fieldLeOf f) (lexLeFields fs)
      (fieldLeOf_total f) (fieldLeOf_trans f)
      (lexLeFields_total fs) (lexLeFields_trans fs)]
    rfl

/-! ### QueryOptimizer: standard pipeline -/

/-- Claim C5, amended: the query evaluator sort is stable and is applied
right-to-left (one stable pass per field, iterating over the reversed
field list), and therefore the FIRST listed field — not the last — is the
primary sort key: the pipeline equals one stable sort by the
lexicographic order `lexLeFields`, whose primary key is the first listed
field. -/
theorem C5_sort_stable_right_to_left_first_primary
    (data : List Row) (fields : List String) :
    applySorting data fields = isortLe (lexLeFields fields) data :=
  applySorting_eq_lexSort data fields

/-- Counterexample to claim C5 as stated: sorting `[rB, rA]` by
`["a", "b"]` yields `[rA, rB]` (primary key `a`, the FIRST listed field),
not the `[rB, rA]` that a primary key `b` (the last listed field, as the
claim states) would produce. -/
theorem C5_counterexample_last_field_not_primary :
    applySorting
        [[("a", PyVal.prim (Scalar.int 1)), ("b", PyVal.prim (Scalar.int 0))],
         [("a", PyVal.prim (Scalar.int 0)), ("b", PyVal.prim (Scalar.int 1))]]
        ["a", "b"] =
      [[("a", PyVal.prim (Scalar.int 0)), ("b", PyVal.prim (Scalar.int 1))],
       [("a", PyVal.prim (Scalar.int 1)), ("b", PyVal.prim (Scalar.int 0))]] ∧
    isortLe (lexLeFields ["b", "a"])
        [[("a", PyVal.prim (Scalar.int 1)), ("b", PyVal.prim (Scalar.int 0))],
         [("a", PyVal.prim (Scalar.int 0)), ("b", PyVal.prim (Scalar.int 1))]] =
      [[("a", PyVal.prim (Scalar.int 1)), ("b", PyVal.prim (Scalar.int 0))],
       [("a", PyVal.prim (Scalar.int 0)), ("b", PyVal.prim (Scalar.int 1))]] ∧
    ([[("a", PyVal.prim (Scalar.int 0)), ("b", PyVal.prim (Scalar.int 1))],
      [("a", PyVal.prim (Scalar.int 1)), ("b", PyVal.prim (Scalar.int 0))]] :
        List Row) ≠
      [[("a", PyVal.prim (Scalar.int 1)), ("b", PyVal.prim (Scalar.int 0))],
       [("a", PyVal.prim (Scalar.int 0)), ("b", PyVal.prim (Scalar.int 1))]] := by
  refine ⟨by decide, by decide, by decide⟩

/-! ### Claim C4: helper lemmas -/

structure DerivedKey where
  master : Nat
  dataId : String
deriving DecidableEq, Repr

/-- `SGXEnclave._derive_key_for_data` in simulation mode (the claims fix
the no-rotation setting, so the rotation check and the cache are
transparent). -/
def deriveKeyForData (master : Nat) (dataId : String) : DerivedKey :=
  ⟨master, dataId⟩

structure SymCiphertext where
  key : DerivedKey
  nonce : Nat
  plaintext : List (String × PyVal)
deriving DecidableEq, Repr

def aesgcmEncrypt (key : DerivedKey) (nonce : Nat)
    (pt : List (String × PyVal)) : SymCiphertext :=
  ⟨key, nonce, pt⟩

/-- Ideal AEAD decryption: the authentication tag verifies exactly when
key and nonce are the ones used at encryption and the ciphertext is
untampered. -/
def aesgcmDecrypt (key : DerivedKey) (nonce : Nat) (ct : SymCiphertext) :
    Option (List (String × PyVal)) :=
  if ct.key = key ∧ ct.nonce = nonce then some ct.plaintext else none

/-- The JSON envelope; every field may be absent. -/
structure EnvelopeMsg where
  version : Option String := none
  algorithm : Option String := none
  data_id : Option String := none
  nonce : Option Nat := none
  ciphertext : Option SymCiphertext := none
deriving DecidableEq, Repr

/-- `SGXEnclave.encrypt_data`, simulation mode, enclave initialized.
`freshId` stands for the `secrets.token_hex(16)` value used when
`data_id` is absent or falsy (empty). -/
def encrypt_data (master : Nat) (data : List (String × PyVal))
    (data_id : Option String) (freshId : String) (nonce : Nat) : EnvelopeMsg :=
  let did := match data_id with
    | none => freshId
    | some s => if s = "" then freshId else s
  let key := deriveKeyForData master did
  { version := some "1.0"
    algorithm := some "AES-GCM-256"
    data_id := some did
    nonce := some nonce
    ciphertext := some (aesgcmEncrypt key nonce data) }

/-- `SGXEnclave.decrypt_data`, simulation mode, enclave initialized:
checks the required fields `version`, `algorithm`, `data_id`, rejects any
algorithm other than AES-GCM-256, reads nonce and ciphertext (a missing
one raises `KeyError`, caught by the outer handler → `None`), derives the
key from the envelope `data_id` and decrypts. -/
def decrypt_data (master : Nat) (e : EnvelopeMsg) :
    Option (List (String × PyVal)) :=
  match e.version, e.algorithm, e.data_id with
  | some _, some alg, some did =>
    if alg ≠ "AES-GCM-256" then none
    else
      match e.nonce, e.ciphertext with
      | some n, some ct => aesgcmDecrypt (deriveKeyForData master did) n ct
      | _, _ => none
  | _, _, _ => none

/-! ### Claim C1 -/

/-- Claim C1: for every dict plaintext `P` and data id `D`, decrypting the
envelope produced by `encrypt_data(P, D)` with the same master key and no
rotation in between returns exactly `P` (for every generated fresh id and
nonce). -/
theorem C1_encrypt_decrypt_roundtrip (master : Nat)
    (P : List (String × PyVal)) (D freshId : String) (nonce : Nat) :
    decrypt_data master (encrypt_data master P (some D) freshId nonce) =
      some P := by
  unfold encrypt_data decrypt_data
  by_cases h : D = ""
  · simp [h, aesgcmDecrypt, aesgcmEncrypt, deriveKeyForData]
  · simp [h, aesgcmDecrypt, aesgcmEncrypt, deriveKeyForData]

/-! ### Claim C2 -/

/-- Claim C2: `decrypt_data` fails (returns no plaintext) whenever
(1) the envelope `data_id` was changed to any `D2` different from the id
used at encryption, (2) the algorithm field is present but is not
AES-GCM-256, (3) a required or used envelope field is missing, or
(4) the AEAD tag does not verify. -/
theorem C2_decrypt_rejects (master : Nat) :
    (∀ (P : List (String × PyVal)) (D1 D2 freshId : String) (nonce : Nat),
      D1 ≠ "" → D2 ≠ D1 →
      decrypt_data master
        { encrypt_data master P (some D1) freshId nonce with
            data_id := some D2 } = none) ∧
    (∀ e : EnvelopeMsg, (∀ a, e.algorithm = some a → a ≠ "AES-GCM-256") →
      decrypt_data master e = none) ∧
    (∀ e : EnvelopeMsg,
      e.version = none ∨ e.algorithm = none ∨ e.data_id = none ∨
        e.nonce = none ∨ e.ciphertext = none →
      decrypt_data master e = none) ∧
    (∀ (v a d : String) (n : Nat) (ct : SymCiphertext),
      aesgcmDecrypt (deriveKeyForData master d) n ct = none →
      decrypt_data master ⟨some v, some a, some d, some n, some ct⟩ = none) := by
  refine ⟨?_, ?_, ?_, ?_⟩
  · intro P D1 D2 freshId nonce h1 h2
    unfold encrypt_data decrypt_data
    simp only [h1, if_neg h1]
    simp [aesgcmDecrypt, aesgcmEncrypt, deriveKeyForData, h2]
    exact fun hh => h2 hh.symm
  · intro e halg
    unfold decrypt_data
    rcases e with ⟨v, alg, did, n, ct⟩
    cases v with
    | none => rfl
    | some vv =>
      cases alg with
      | none => rfl
      | some a =>
        cases did with
        | none => rfl
        | some d =>
          simp only
          rw [if_pos (halg a rfl)]
  · intro e hmiss
    rcases e with ⟨v, alg, did, n, ct⟩
    rcases hmiss with h | h | h | h | h <;> subst h
    · rfl
    · cases v <;> rfl
    · cases v <;> cases alg <;> rfl
    · cases v with
      | none => rfl
      | some vv =>
        cases alg with
        | none => rfl
        | some a =>
          cases did with
          | none => rfl
          | some d =>
            unfold decrypt_data
            simp only
            split
            · rfl
            · cases ct <;> rfl
    · cases v with
      | none => rfl
      | some vv =>
        cases alg with
        | none => rfl
        | some a =>
          cases did with
          | none => rfl
          | some d =>
            unfold decrypt_data
            simp only
            split
            · rfl
            · cases n <;> rfl
  · intro v a d n ct htag
    unfold decrypt_data
    simp only
    split
    · rfl
    · exact htag

/-- Witness for C2: each rejection mode exercised at a concrete envelope. -/
theorem C2_decrypt_rejects_witness :
    decrypt_data 0
      { encrypt_data 0 [("k", PyVal.prim (Scalar.int 1))] (some "d") "f" 0 with
          data_id := some "e" } = none ∧
    decrypt_data 0 ⟨some "1.0", some "SGX-SEALED", some "d", some 0,
      some ⟨⟨0, "d"⟩, 0, []⟩⟩ = none ∧
    decrypt_data 0 {} = none ∧
    decrypt_data 0 ⟨some "1.0", some "AES-GCM-256", some "d", some 0,
      some ⟨⟨0, "x"⟩, 0, []⟩⟩ = none := by
  have h := C2_decrypt_rejects 0
  refine ⟨h.1 [("k", PyVal.prim (Scalar.int 1))] "d" "e" "f" 0 (by decide) (by decide),
    h.2.1 _ ?_, h.2.2.1 {} (Or.inl rfl),
    h.2.2.2 "1.0" "AES-GCM-256" "d" 0 ⟨⟨0, "x"⟩, 0, []⟩ (by decide)⟩
  intro a ha
  cases ha
  decide

/-! ### SGXEnclave.secure_compute_on_encrypted, simulation mode

Returns Python `None` (`none`) when decryption fails or an unknown
aggregate sub-operation leaves `result = None`; `{"error": msg}` values
are `ComputeResult.err msg`; an `{"error": str(e)}` produced by the outer
exception handler is `ComputeResult.errExn` (its message is
implementation defined).  Strings are handled at the character level
(ASCII case folding, as exercised by this code base). -/

/-- Python truthiness of the parameter values inspected here. -/
def pyFalsy : PyVal → Bool
  | .prim (.str s) => s == ""
  | .prim (.int n) => n == 0
  | .prim (.bool b) => !b
  | .prim .null => true
  | .dictV e => e.isEmpty
  | .listV xs => xs.isEmpty
  | .nan => false

/-- `params.get(k, dflt)`. -/
def paramGet (params : List (String × PyVal)) (k : String) (dflt : PyVal) :
    PyVal :=
  (List.lookup k params).getD dflt

/-- ASCII lower casing of one character (`str.lower`). -/
def lowCh (c : Char) : Char :=
  if 65 ≤ c.toNat ∧ c.toNat ≤ 90 then Char.ofNat (c.toNat + 32) else c

def lowStr (s : String) : List Char := s.data.map lowCh

/-- `needle` is a prefix of the second list. -/
def chPre : List Char → List Char → Bool
  | [], _ => true
  | _ :: _, [] => false
  | a :: as, b :: bs => a == b && chPre as bs

/-- Python `needle in hay` substring test. -/
def chSub (needle : List Char) : List Char → Bool
  | [] => needle.isEmpty
  | b :: bs => chPre needle (b :: bs) || chSub needle bs

/-- Python `str(v)` for the values compared by the numeric search branch. -/
def pyStrOf : PyVal → String
  | .prim (.str s) => s
  | .prim (.int n) => toString n
  | .prim (.bool b) => if b then "True" else "False"
  | .prim .null => "None"
  | .dictV _ => "<dict>"
  | .listV _ => "<list>"
  | .nan => "nan"

/-- One item of the search loop: a string value needs `query.lower()`
(raising `AttributeError` when the query is not a string — `.error`);
a numeric value (Python counts bools and NaN as numbers) compares
stringified representations; other values never match. -/
def searchStep (query : PyVal) (kv : String × PyVal) :
    Except Unit (Option (String × PyVal)) :=
  match kv.2 with
  | .prim (.str s) =>
    match query with
    | .prim (.str q) => .ok (if chSub (lowStr q) (lowStr s) then some kv else none)
    | _ => .error ()
  | .prim (.int n) =>
    .ok (if pyStrOf query == pyStrOf (.prim (.int n)) then some kv else none)
  | .prim (.bool b) =>
    .ok (if pyStrOf query == pyStrOf (.prim (.bool b)) then some kv else none)
  | .nan => .ok (if pyStrOf query == "nan" then some kv else none)
  | _ => .ok none

def searchFold (query : PyVal) :
    List (String × PyVal) → Except Unit (List (String × PyVal))
  | [] => .ok []
  | kv :: rest =>
    match searchStep query kv with
    | .error e => .error e
    | .ok r =>
      match searchFold query rest with
      | .error e => .error e
      | .ok ms => .ok (match r with | some m => m :: ms | none => ms)

/-- `isinstance(x, (int, float))` payload for dict fields (Python bools
are ints). -/
def numericOf : Scalar → Option Int
  | .int n => some n
  | .bool b => some (if b then 1 else 0)
  | _ => none

/-- The `values` list collected by the aggregate loop: numeric fields
named `agg_field` of dict-valued items. -/
def aggValues (fieldKey : PyVal) (dec : List (String × PyVal)) : List Int :=
  dec.foldr (fun kv acc =>
    match kv.2 with
    | .dictV m =>
      (match fieldKey with
       | .prim (.str f) =>
         (match List.lookup f m with
          | some sc =>
            (match numericOf sc with
             | some n => n :: acc
             | none => acc)
          | none => acc)
       | _ => acc)
    | _ => acc) []

def maxList : List Int → Option Int
  | [] => none
  | x :: xs => some (xs.foldl max x)

def minList : List Int → Option Int
  | [] => none
  | x :: xs => some (xs.foldl min x)

inductive AggResult
  | rint (n : Int)
  | rratio (num : Int) (den : Nat)
  | rnull
deriving DecidableEq, Repr

inductive ComputeResult
  | searchRes (found : List (String × PyVal)) (count : Nat)
  | aggRes (r : AggResult)
  | filterRes (kept : List (String × PyVal)) (count : Nat)
  | err (msg : String)
  | errExn
deriving DecidableEq, Repr

/-- Python string `<`: lexicographic and strict. -/
def chListLt (a b : List Char) : Bool := chListLe a b && !(a == b)

/-- The numeric payload of a value for Python arithmetic comparison
(bools count as ints). -/
def numericValOf : PyVal → Option Int
  | .prim sc => numericOf sc
  | _ => none

/-- One ordering comparison of the filter loop (`gt`/`gte`/`lt`/`lte`):
`some` when Python can compare the two values (numbers with numbers —
bools and NaN count as numbers, NaN comparing false — and strings with
strings), `none` when Python raises `TypeError`. -/
def pyCmpOp (a b : PyVal) (op : String) : Option Bool :=
  match a, b with
  | .prim (.str x), .prim (.str y) =>
    if op = "gt" then some (chListLt y.data x.data)
    else if op = "gte" then some (chListLe y.data x.data)
    else if op = "lt" then some (chListLt x.data y.data)
    else some (chListLe x.data y.data)
  | .nan, .prim (.int _) => some false
  | .nan, .prim (.bool _) => some false
  | .nan, .nan => some false
  | .prim (.int _), .nan => some false
  | .prim (.bool _), .nan => some false
  | x, y =>
    match numericValOf x, numericValOf y with
    | some nx, some ny =>
      if op = "gt" then some (ny < nx)
      else if op = "gte" then some (ny ≤ nx)
      else if op = "lt" then some (nx < ny)
      else some (nx ≤ ny)
    | _, _ => none

/-- The filter loop over the decrypted dict.  A dict-valued item whose
named field exists is compared; Python raises on incomparable ordering
operands (`.error`); an unrecognized operator leaves `include = False`. -/
def filterFold (fieldKey fValue fOp : PyVal) :
    List (String × PyVal) → Except Unit (List (String × PyVal))
  | [] => .ok []
  | kv :: rest =>
    let keep? : Except Unit Bool :=
      match kv.2 with
      | .dictV m =>
        (match fieldKey with
         | .prim (.str f) =>
           (match List.lookup f m with
            | some sc =>
              let fv : PyVal := .prim sc
              if fOp = PyVal.prim (.str "eq") then .ok (pyEqB fv fValue)
              else if fOp = PyVal.prim (.str "neq") then .ok (!pyEqB fv fValue)
              else if fOp = PyVal.prim (.str "gt") then
                (match pyCmpOp fv fValue "gt" with
                 | some b => .ok b
                 | none => .error ())
              else if fOp = PyVal.prim (.str "gte") then
                (match pyCmpOp fv fValue "gte" with
                 | some b => .ok b
                 | none => .error ())
              else if fOp = PyVal.prim (.str "lt") then
                (match pyCmpOp fv fValue "lt" with
                 | some b => .ok b
                 | none => .error ())
              else if fOp = PyVal.prim (.str "lte") then
                (match pyCmpOp fv fValue "lte" with
                 | some b => .ok b
                 | none => .error ())
              else .ok false
            | none => .ok false)
         | _ => .ok false)
      | _ => .ok false
    match keep? with
    | .error e => .error e
    | .ok keep =>
      match filterFold fieldKey fValue fOp rest with
      | .error e => .error e
      | .ok ks => .ok (if keep then kv :: ks else ks)

/-- The Python-`None`-aware filter value: `params.get('value')` is `None`
when the key is absent or its value is `None`. -/
def filterValueOf (params : List (String × PyVal)) : Option PyVal :=
  match List.lookup "value" params with
  | none => none
  | some (.prim .null) => none
  | some v => some v

/-- `SGXEnclave.secure_compute_on_encrypted`, simulation mode. -/
def secure_compute (master : Nat) (operation : String) (encrypted : EnvelopeMsg)
    (params : List (String × PyVal)) : Option ComputeResult :=
  match decrypt_data master encrypted with
  | none => none
  | some dec =>
    if dec = [] then none
    else if operation = "search" then
      let query := paramGet params "query" (.prim (.str ""))
      if pyFalsy query then some (.err "No search query provided")
      else
        match searchFold query dec with
        | .error _ => some .errExn
        | .ok ms => some (.searchRes ms ms.length)
    else if operation = "aggregate" then
      let aggField := paramGet params "field" (.prim (.str ""))
      let aggOp := paramGet params "operation" (.prim (.str "sum"))
      if pyFalsy aggField then some (.err "No aggregation field provided")
      else
        let values := aggValues aggField dec
        if aggOp = PyVal.prim (.str "sum") then some (.aggRes (.rint values.sum))
        else if aggOp = PyVal.prim (.str "avg") then
          some (.aggRes (if values.isEmpty then .rint 0
            else .rratio values.sum values.length))
        else if aggOp = PyVal.prim (.str "max") then
          some (.aggRes (match maxList values with
            | some n => .rint n
            | none => .rnull))
        else if aggOp = PyVal.prim (.str "min") then
          some (.aggRes (match minList values with
            | some n => .rint n
            | none => .rnull))
        else if aggOp = PyVal.prim (.str "count") then
          some (.aggRes (.rint values.length))
        else none
    else if operation = "filter" then
      let fField := paramGet params "field" (.prim (.str ""))
      let fOp := paramGet params "operator" (.prim (.str "eq"))
      match filterValueOf params with
      | none => some (.err "Incomplete filter parameters")
      | some fv =>
        if pyFalsy fField then some (.err "Incomplete filter parameters")
        else
          match filterFold fField fv fOp dec with
          | .error _ => some .errExn
          | .ok kept => some (.filterRes kept kept.length)
    else some (.err ("Unsupported operation: " ++ operation))

/-! ### Claim C9 -/

/-- Claim C9, amended: on an envelope that decrypts to a non-empty
payload, an operation outside {search, aggregate, filter} returns the
error value `{"error": "Unsupported operation: <op>"}` (not the literal
`{"error":"unsupported operation"}` of the claim); a missing/empty search
query, a missing/empty aggregate field, and a missing filter field or
`None` filter value each return the corresponding `{"error": <reason>}`
value.  (An unknown aggregate sub-operation instead returns nothing, and
an unknown filter operator returns an ordinary empty result — see the
counterexample; on an envelope that does not decrypt, or that decrypts
to an empty payload — the `if not decrypted_data` guard — every
operation returns nothing.) -/
theorem C9_compute_errors (master : Nat) (env : EnvelopeMsg)
    (dec : List (String × PyVal)) (hdec : decrypt_data master env = some dec)
    (hne : dec ≠ []) :
    (∀ (op : String) (params : List (String × PyVal)),
      op ≠ "search" → op ≠ "aggregate" → op ≠ "filter" →
      secure_compute master op env params =
        some (.err ("Unsupported operation: " ++ op))) ∧
    (∀ params, pyFalsy (paramGet params "query" (.prim (.str ""))) = true →
      secure_compute master "search" env params =
        some (.err "No search query provided")) ∧
    (∀ params, pyFalsy (paramGet params "field" (.prim (.str ""))) = true →
      secure_compute master "aggregate" env params =
        some (.err "No aggregation field provided")) ∧
    (∀ params, pyFalsy (paramGet params "field" (.prim (.str ""))) = true ∨
        filterValueOf params = none →
      secure_compute master "filter" env params =
        some (.err "Incomplete filter parameters")) := by
  refine ⟨?_, ?_, ?_, ?_⟩
  · intro op params h1 h2 h3
    unfold secure_compute
    rw [hdec]
    dsimp only
    rw [if_neg hne, if_neg h1, if_neg h2, if_neg h3]
  · intro params hq
    unfold secure_compute
    rw [hdec]
    dsimp only
    rw [if_neg hne, if_pos rfl, if_pos hq]
  · intro params hq
    unfold secure_compute
    rw [hdec]
    dsimp only
    rw [if_neg hne, if_neg (by decide : ¬ ("aggregate" : String) = "search"),
      if_pos rfl, if_pos hq]
  · intro params hcase
    unfold secure_compute
    rw [hdec]
    dsimp only
    rw [if_neg hne, if_neg (by decide : ¬ ("filter" : String) = "search"),
      if_neg (by decide : ¬ ("filter" : String) = "aggregate"), if_pos rfl]
    rcases hcase with hfld | hval
    · cases hv : filterValueOf params with
      | none => rfl
      | some fv =>
        simp only
        rw [if_pos hfld]
    · rw [hval]
  
/-- Witness for C9 (amended), each error path at a concrete input. -/
theorem C9_compute_errors_witness :
    secure_compute 0 "scan"
      (encrypt_data 0 [("k", PyVal.prim (Scalar.int 7))] (some "d") "f" 0) [] =
      some (.err "Unsupported operation: scan") ∧
    secure_compute 0 "search"
      (encrypt_data 0 [("k", PyVal.prim (Scalar.int 7))] (some "d") "f" 0) [] =
      some (.err "No search query provided") ∧
    secure_compute 0 "aggregate"
      (encrypt_data 0 [("k", PyVal.prim (Scalar.int 7))] (some "d") "f" 0) [] =
      some (.err "No aggregation field provided") ∧
    secure_compute 0 "filter"
      (encrypt_data 0 [("k", PyVal.prim (Scalar.int 7))] (some "d") "f" 0)
      [("field", PyVal.prim (Scalar.str "x"))] =
      some (.err "Incomplete filter parameters") := by
  have h := C9_compute_errors 0
    (encrypt_data 0 [("k", PyVal.prim (Scalar.int 7))] (some "d") "f" 0)
    [("k", PyVal.prim (Scalar.int 7))] (by decide) (by decide)
  exact ⟨h.1 "scan" [] (by decide) (by decide) (by decide),
    h.2.1 [] (by decide), h.2.2.1 [] (by decide),
    h.2.2.2 [("field", PyVal.prim (Scalar.str "x"))] (Or.inr (by decide))⟩

/-- Counterexample to claim C9 as stated: (1) an aggregate with the
malformed sub-operation `median` returns nothing (Python `None`), not an
error value; (2) an operation outside the three supported ones returns
`{"error": "Unsupported operation: <op>"}`, not the claimed literal
`{"error": "unsupported operation"}`. -/
theorem C9_counterexample_malformed_returns_none :
    secure_compute 0 "aggregate"
      (encrypt_data 0 [("r", PyVal.dictV [("x", Scalar.int 1)])] (some "d") "f" 0)
      [("field", PyVal.prim (Scalar.str "x")),
       ("operation", PyVal.prim (Scalar.str "median"))] = none ∧
    secure_compute 0 "frobnicate"
      (encrypt_data 0 [("r", PyVal.dictV [("x", Scalar.int 1)])] (some "d") "f" 0)
      [] = some (.err "Unsupported operation: frobnicate") ∧
    ("Unsupported operation: frobnicate" : String) ≠ "unsupported operation" := by
  refine ⟨by decide, by decide, by decide⟩

/-! ### Claim C10 -/

/-- Claim C10, amended: when the decrypted content is non-empty (the
`if not decrypted_data` guard — see the counterexample for the empty
payload, which has no numeric value at any field yet yields nothing)
but has no numeric value at the named field (the collected `values`
list is empty), aggregate returns `{"result": 0}` for sum, avg (the
guard) and count, and `{"result": null}` for max and min — never an
error. -/
theorem C10_aggregate_empty_values (master : Nat) (env : EnvelopeMsg)
    (dec : List (String × PyVal)) (hdec : decrypt_data master env = some dec)
    (hne : dec ≠ []) (f : String) (hf : f ≠ "")
    (params : List (String × PyVal))
    (hfield : List.lookup "field" params = some (.prim (.str f)))
    (hvals : aggValues (.prim (.str f)) dec = []) :
    (paramGet params "operation" (.prim (.str "sum")) = .prim (.str "sum") →
      secure_compute master "aggregate" env params = some (.aggRes (.rint 0))) ∧
    (paramGet params "operation" (.prim (.str "sum")) = .prim (.str "avg") →
      secure_compute master "aggregate" env params = some (.aggRes (.rint 0))) ∧
    (paramGet params "operation" (.prim (.str "sum")) = .prim (.str "max") →
      secure_compute master "aggregate" env params = some (.aggRes .rnull)) ∧
    (paramGet params "operation" (.prim (.str "sum")) = .prim (.str "min") →
      secure_compute master "aggregate" env params = some (.aggRes .rnull)) ∧
    (paramGet params "operation" (.prim (.str "sum")) = .prim (.str "count") →
      secure_compute master "aggregate" env params = some (.aggRes (.rint 0))) := by
  have hfb : (f == "") = false := beq_eq_false_iff_ne.mpr hf
  have hnotfalsy : pyFalsy (paramGet params "field" (.prim (.str ""))) = false := by
    simp [paramGet, hfield, pyFalsy, hfb]
  have hparamfield : paramGet params "field" (.prim (.str "")) = .prim (.str f) := by
    simp [paramGet, hfield]
  refine ⟨?_, ?_, ?_, ?_, ?_⟩ <;> intro hop <;>
    · unfold secure_compute
      rw [hdec]
      dsimp only
      rw [if_neg hne,
        if_neg (by decide : ¬ ("aggregate" : String) = "search"), if_pos rfl,
        if_neg (by simp [hnotfalsy]), hop, hparamfield, hvals]
      simp [maxList, minList]

/-- Witness for C10: a dict whose named field holds a string (and a
non-dict sibling item), aggregated under each sub-operation. -/
theorem C10_aggregate_empty_values_witness :
    secure_compute 0 "aggregate"
      (encrypt_data 0 [("r", PyVal.dictV [("x", Scalar.str "hello")]),
        ("s", PyVal.prim (Scalar.int 3))] (some "d") "g" 0)
      [("field", PyVal.prim (Scalar.str "x")),
       ("operation", PyVal.prim (Scalar.str "sum"))] =
      some (.aggRes (.rint 0)) ∧
    secure_compute 0 "aggregate"
      (encrypt_data 0 [("r", PyVal.dictV [("x", Scalar.str "hello")]),
        ("s", PyVal.prim (Scalar.int 3))] (some "d") "g" 0)
      [("field", PyVal.prim (Scalar.str "x")),
       ("operation", PyVal.prim (Scalar.str "avg"))] =
      some (.aggRes (.rint 0)) ∧
    secure_compute 0 "aggregate"
      (encrypt_data 0 [("r", PyVal.dictV [("x", Scalar.str "hello")]),
        ("s", PyVal.prim (Scalar.int 3))] (some "d") "g" 0)
      [("field", PyVal.prim (Scalar.str "x")),
       ("operation", PyVal.prim (Scalar.str "max"))] =
      some (.aggRes .rnull) ∧
    secure_compute 0 "aggregate"
      (encrypt_data 0 [("r", PyVal.dictV [("x", Scalar.str "hello")]),
        ("s", PyVal.prim (Scalar.int 3))] (some "d") "g" 0)
      [("field", PyVal.prim (Scalar.str "x")),
       ("operation", PyVal.prim (Scalar.str "min"))] =
      some (.aggRes .rnull) ∧
    secure_compute 0 "aggregate"
      (encrypt_data 0 [("r", PyVal.dictV [("x", Scalar.str "hello")]),
        ("s", PyVal.prim (Scalar.int 3))] (some "d") "g" 0)
      [("field", PyVal.prim (Scalar.str "x")),
       ("operation", PyVal.prim (Scalar.str "count"))] =
      some (.aggRes (.rint 0)) := by
  have h := fun opv =>
    C10_aggregate_empty_values 0
      (encrypt_data 0 [("r", PyVal.dictV [("x", Scalar.str "hello")]),
        ("s", PyVal.prim (Scalar.int 3))] (some "d") "g" 0)
      [("r", PyVal.dictV [("x", Scalar.str "hello")]),
        ("s", PyVal.prim (Scalar.int 3))]
      (by decide) (by decide) "x" (by decide)
      [("field", PyVal.prim (Scalar.str "x")),
       ("operation", PyVal.prim (Scalar.str opv))]
      rfl (by decide)
  exact ⟨(h "sum").1 (by decide), (h "avg").2.1 (by decide),
    (h "max").2.2.1 (by decide), (h "min").2.2.2.1 (by decide),
    (h "count").2.2.2.2 (by decide)⟩

/-- Counterexample to claim C10 as stated: an envelope whose decrypted
content is the empty dict contains no numeric value at the named field,
yet `secure_compute_on_encrypted` returns nothing (the
`if not decrypted_data: return None` guard fires before the aggregate
branch), not `{"result": 0}`. -/
theorem C10_counterexample_empty_payload :
    aggValues (PyVal.prim (Scalar.str "x")) ([] : List (String × PyVal)) = [] ∧
    secure_compute 0 "aggregate" (encrypt_data 0 [] (some "d") "f" 0)
      [("field", PyVal.prim (Scalar.str "x")),
       ("operation", PyVal.prim (Scalar.str "sum"))] = none ∧
    (none : Option ComputeResult) ≠ some (.aggRes (.rint 0)) := by
  refine ⟨by decide, by decide, by decide⟩

/-! ### Data-plane write handlers (`src/server/main_new.py`)

`store_cell_data` (POST /cells/{key}/data) and `delete_cell_data`
(DELETE /cells/{key}/data/{item}).  The catalog queries become lookups in
explicit lists; the per-cell sqlite table becomes an explicit row list;
`datetime.now()` is the `now` parameter.  The enclave-initialized branch
of the store handler (which encrypts the value before storing it) is
elided: it runs only after the authorization check and does not affect
the rejection outcome or whether the store changes, which is all claim C3
is about. -/

structure CellRec where
  id : Nat
  key : String
deriving DecidableEq, Repr

structure OwnershipRow where
  user_id : Nat
  cell_id : Nat
  permission_level : String
deriving DecidableEq, Repr

/-- `db.query(Cell).filter(Cell.key == cell_key).first()`. -/
def findCell (cells : List CellRec) (cellKey : String) : Option CellRec :=
  cells.find? (fun c => c.key == cellKey)

/-- `db.query(CellOwnership).filter(cell_id == .., user_id == ..).first()`. -/
def findOwnership (rows : List OwnershipRow) (cellId userId : Nat) :
    Option OwnershipRow :=
  rows.find? (fun o => o.cell_id == cellId && o.user_id == userId)

structure DataRow where
  key : String
  value : String
  created_at : String
  updated_at : String
deriving DecidableEq, Repr

inductive WriteOutcome
  | httpErr (code : Nat)
  | stored (encrypted : Bool)
  | deleted
deriving DecidableEq, Repr

/-- The sqlite upsert: UPDATE value/updated_at when the key exists,
otherwise INSERT with created_at = updated_at = now. -/
def upsertRow (store : List DataRow) (k v now : String) : List DataRow :=
  if store.any (fun r => r.key == k) then
    store.map (fun r =>
      if r.key == k then { r with value := v, updated_at := now } else r)
  else
    store ++ [⟨k, v, now, now⟩]

/-- `store_cell_data`: 404 on unknown cell; 403 unless an ownership row
with permission owner/editor exists; otherwise upsert. -/
def store_cell_data (cells : List CellRec) (ownerships : List OwnershipRow)
    (userId : Nat) (cellKey itemKey itemValue : String)
    (store : List DataRow) (now : String) : WriteOutcome × List DataRow :=
  match findCell cells cellKey with
  | none => (.httpErr 404, store)
  | some cell =>
    match findOwnership ownerships cell.id userId with
    | none => (.httpErr 403, store)
    | some o =>
      if o.permission_level ≠ "owner" ∧ o.permission_level ≠ "editor" then
        (.httpErr 403, store)
      else
        (.stored false, upsertRow store itemKey itemValue now)

/-- `delete_cell_data`: 404 on unknown cell; 403 unless owner/editor;
otherwise DELETE WHERE key = item (a no-op when absent). -/
def delete_cell_data (cells : List CellRec) (ownerships : List OwnershipRow)
    (userId : Nat) (cellKey itemKey : String)
    (store : List DataRow) : WriteOutcome × List DataRow :=
  match findCell cells cellKey with
  | none => (.httpErr 404, store)
  | some cell =>
    match findOwnership ownerships cell.id userId with
    | none => (.httpErr 403, store)
    | some o =>
      if o.permission_level ≠ "owner" ∧ o.permission_level ≠ "editor" then
        (.httpErr 403, store)
      else
        (.deleted, store.filter (fun r => !(r.key == itemKey)))

/-! ### Claim C3 -/

/-- Claim C3: for an existing cell, a write request (store or delete) by
a user whose ownership lookup yields no row, or a row whose permission
level is neither owner nor editor (e.g. a viewer), is rejected with 403
and leaves the stored data unchanged. -/
theorem C3_write_requires_owner_or_editor
    (cells : List CellRec) (ownerships : List OwnershipRow) (userId : Nat)
    (cellKey itemKey itemValue now : String) (store : List DataRow)
    (cell : CellRec) (hcell : findCell cells cellKey = some cell)
    (hperm : ∀ o, findOwnership ownerships cell.id userId = some o →
      o.permission_level ≠ "owner" ∧ o.permission_level ≠ "editor") :
    store_cell_data cells ownerships userId cellKey itemKey itemValue store now =
      (.httpErr 403, store) ∧
    delete_cell_data cells ownerships userId cellKey itemKey store =
      (.httpErr 403, store) := by
  constructor
  · unfold store_cell_data
    rw [hcell]
    dsimp only
    cases ho : findOwnership ownerships cell.id userId with
    | none => rfl
    | some o =>
      dsimp only
      rw [if_pos (hperm o ho)]
  · unfold delete_cell_data
    rw [hcell]
    dsimp only
    cases ho : findOwnership ownerships cell.id userId with
    | none => rfl
    | some o =>
      dsimp only
      rw [if_pos (hperm o ho)]

/-- Witness for C3: a viewer (user 7) and a user with no ownership row
(user 9) are both rejected with 403 and the store is unchanged. -/
theorem C3_write_requires_owner_or_editor_witness :
    (store_cell_data [⟨1, "c"⟩] [⟨7, 1, "viewer"⟩] 7 "c" "k" "v"
        [⟨"k", "old", "t0", "t0"⟩] "t1" =
      (.httpErr 403, [⟨"k", "old", "t0", "t0"⟩]) ∧
    delete_cell_data [⟨1, "c"⟩] [⟨7, 1, "viewer"⟩] 7 "c" "k"
        [⟨"k", "old", "t0", "t0"⟩] =
      (.httpErr 403, [⟨"k", "old", "t0", "t0"⟩])) ∧
    (store_cell_data [⟨1, "c"⟩] [⟨7, 1, "viewer"⟩] 9 "c" "k" "v"
        [⟨"k", "old", "t0", "t0"⟩] "t1" =
      (.httpErr 403, [⟨"k", "old", "t0", "t0"⟩]) ∧
    delete_cell_data [⟨1, "c"⟩] [⟨7, 1, "viewer"⟩] 9 "c" "k"
        [⟨"k", "old", "t0", "t0"⟩] =
      (.httpErr 403, [⟨"k", "old", "t0", "t0"⟩])) := by
  constructor
  · refine C3_write_requires_owner_or_editor [⟨1, "c"⟩] [⟨7, 1, "viewer"⟩] 7
      "c" "k" "v" "t1" [⟨"k", "old", "t0", "t0"⟩] ⟨1, "c"⟩ (by decide) ?_
    intro o ho
    have h2 : (some (⟨7, 1, "viewer"⟩ : OwnershipRow) : Option OwnershipRow) =
        some o := ho
    cases h2
    exact ⟨by decide, by decide⟩
  · refine C3_write_requires_owner_or_editor [⟨1, "c"⟩] [⟨7, 1, "viewer"⟩] 9
      "c" "k" "v" "t1" [⟨"k", "old", "t0", "t0"⟩] ⟨1, "c"⟩ (by decide) ?_
    intro o ho
    have h2 : (none : Option OwnershipRow) = some o := ho
    cases h2

/-! ### LiquidCache
(`src/server/services/liquid_cache/liquid_cache.py`)

Explicit-state embedding; `time.time()` is the `now : Nat` parameter of
every operation (seconds).  Python dicts (insertion ordered, updates in
place) are ordered association lists.  `predicted_score` only ever holds
0.0 or 0.8 in the source and is stored in tenths (`psTenths` ∈ {0, 8});
the promotion score
`access_count / max(1, tsla/3600) * (1 + predicted_score)` is compared
with its thresholds by exact cross multiplication (`scoreGt`), so no
rounding is introduced.  `avg_interval`, a derived statistic written but
never read by the modelled operations, is represented by the
`last_intervals` window it is recomputed from.  Pattern persistence
(`_save_patterns` every 100 observations) writes a file and does not
change the in-memory state, and the preload path (`load_func`) spawns a
thread; both are outside the modelled state. -/

structure CacheItemM where
  key : String
  value : String
  created_at : Nat
  last_accessed : Nat
  access_count : Nat
  ttl : Nat
  layer : Nat
  psTenths : Nat
deriving DecidableEq, Repr

/-- `CacheItem.is_expired`: `time.time() > created_at + ttl`. -/
def CacheItemM.isExpired (it : CacheItemM) (now : Nat) : Bool :=
  decide (it.created_at + it.ttl < now)

/-- `CacheItem.time_since_last_access`. -/
def CacheItemM.tsla (it : CacheItemM) (now : Nat) : Nat := now - it.last_accessed

/-- `access_count / max(1, tsla/3600) * (1 + predicted_score) > threshold`
by exact cross multiplication: the divisor is 1 when tsla ≤ 3600 and
tsla/3600 otherwise. -/
def scoreGt (it : CacheItemM) (now threshold : Nat) : Bool :=
  let t := it.tsla now
  let mn := if t ≤ 3600 then 1 else t
  let md := if t ≤ 3600 then 1 else 3600
  decide (it.access_count * (10 + it.psTenths) * md > threshold * 10 * mn)

abbrev CacheDict := List (String × CacheItemM)

/-- Python dict write `d[k] = v`: update in place, append when new. -/
def dSet : CacheDict → String → CacheItemM → CacheDict
  | [], k, v => [(k, v)]
  | (a, w) :: rest, k, v =>
    if a == k then (a, v) :: rest else (a, w) :: dSet rest k v

/-- Python dict delete `del d[k]`. -/
def dDel (d : CacheDict) (k : String) : CacheDict :=
  d.filter (fun p => !(p.1 == k))

def totalSize (layers : List CacheDict) : Nat := (layers.map List.length).sum

structure QueryPatternM where
  pattern : String
  count : Nat
  last_seen : Nat
  next_patterns : List (String × Nat)
  last_intervals : List Nat
deriving DecidableEq, Repr

/-- `QueryPattern.__init__`. -/
def newQueryPattern (pat : String) (now : Nat) : QueryPatternM :=
  { pattern := pat, count := 1, last_seen := now, next_patterns := [],
    last_intervals := [] }

/-- `QueryPattern.update`. -/
def QueryPatternM.update (p : QueryPatternM) (now : Nat) : QueryPatternM :=
  let li := p.last_intervals ++ [now - p.last_seen]
  let li := if li.length > 10 then li.drop 1 else li
  { p with count := p.count + 1, last_seen := now, last_intervals := li }

/-- `defaultdict(int)` increment `d[k] += 1` (in place, append a 1 when
new). -/
def bumpAssoc : List (String × Nat) → String → List (String × Nat)
  | [], k => [(k, 1)]
  | (a, n) :: rest, k =>
    if a == k then (a, n + 1) :: rest else (a, n) :: bumpAssoc rest k

/-- `QueryPattern.add_next_pattern`. -/
def addNextPattern (p : QueryPatternM) (nxt : String) : QueryPatternM :=
  { p with next_patterns := bumpAssoc p.next_patterns nxt }

/-- In-place value update of one key of a pattern dict. -/
def assocUpdate :
    List (String × QueryPatternM) → String → (QueryPatternM → QueryPatternM) →
    List (String × QueryPatternM)
  | [], _, _ => []
  | (a, p) :: rest, k, f =>
    if a == k then (a, f p) :: rest else (a, p) :: assocUpdate rest k f

structure LiquidCacheState where
  enabled : Bool
  max_size : Nat
  default_ttl : Nat
  num_layers : Nat
  cache_layers : List CacheDict
  query_patterns : List (String × QueryPatternM)
  last_queries : List String
  max_pattern_history : Nat
  hits : Nat
  misses : Nat
  cleanup_interval : Nat
  last_cleanup : Nat
deriving DecidableEq, Repr

/-- `LiquidCache.__init__` with the given configuration (layer count,
max size, default TTL), at startup time `now`. -/
def initCache (now layers size ttl : Nat) : LiquidCacheState :=
  { enabled := true, max_size := size, default_ttl := ttl,
    num_layers := layers, cache_layers := List.replicate layers [],
    query_patterns := [], last_queries := [], max_pattern_history := 100,
    hits := 0, misses := 0, cleanup_interval := 300, last_cleanup := now }

/-- `LiquidCache._move_between_layers`. -/
def moveBetweenLayers (layers : List CacheDict) (key : String)
    (fromL toL : Nat) : List CacheDict :=
  match List.lookup key (layers.getD fromL []) with
  | none => layers
  | some item =>
    let item2 := { item with layer := toL }
    let layers2 := layers.set fromL (dDel (layers.getD fromL []) key)
    layers2.set toL (dSet (layers2.getD toL []) key item2)

/-- `LiquidCache._update_item_layer`: thresholds 10 / 5 / 1 pick layers
0 / 1 / min(2, L-1), else min(3, L-1); the move happens only when the
target differs and is in range. -/
def updateItemLayer (numLayers : Nat) (layers : List CacheDict)
    (item : CacheItemM) (now : Nat) : List CacheDict :=
  let target :=
    if scoreGt item now 10 then 0
    else if scoreGt item now 5 then 1
    else if scoreGt item now 1 then min 2 (numLayers - 1)
    else min 3 (numLayers - 1)
  if target ≠ item.layer ∧ target < numLayers then
    moveBetweenLayers layers item.key item.layer target
  else layers

/-- The eviction order of `_cleanup`: ascending `access_count`, ties by
descending time since last access (Python key
`(x.access_count, -x.time_since_last_access())`). -/
def evictLe (now : Nat) (p q : String × CacheItemM) : Bool :=
  lexComb (fun p q => decide (p.2.access_count ≤ q.2.access_count))
    (fun p q => decide (q.2.tsla now ≤ p.2.tsla now)) p q

/-- The eviction loop of `_cleanup` over the layer indexes, coldest
first, with the remaining removal budget. -/
def evictLoop (now : Nat) : List Nat → List CacheDict → Nat → List CacheDict
  | [], layers, _ => layers
  | i :: rest, layers, n =>
    if n = 0 then layers
    else
      let d := layers.getD i []
      let m := min n d.length
      let removedKeys := ((isortLe (evictLe now) d).take m).map Prod.fst
      let d2 := d.filter (fun p => !(removedKeys.contains p.1))
      evictLoop now rest (layers.set i d2) (n - m)

/-- `LiquidCache._cleanup`: early exit inside the interval unless forced;
drop expired entries; evict from the coldest layers down to `max_size`. -/
def cleanup (st : LiquidCacheState) (now : Nat) (force : Bool) :
    LiquidCacheState :=
  if force = false ∧ now - st.last_cleanup < st.cleanup_interval then st
  else
    let st1 := { st with last_cleanup := now }
    let layers := st1.cache_layers.map (fun d =>
      d.filter (fun p => !(p.2.isExpired now)))
    let total := totalSize layers
    if total ≤ st1.max_size then { st1 with cache_layers := layers }
    else
      let layers2 :=
        evictLoop now ((List.range st1.num_layers).reverse) layers
          (total - st1.max_size)
      { st1 with cache_layers := layers2 }

/-- `LiquidCache.get`: search the layers hottest first; drop an expired
hit; otherwise record the access, re-layer the item and return its
value. -/
def cacheGet (st0 : LiquidCacheState) (now : Nat) (key : String) :
    Option String × LiquidCacheState :=
  if st0.enabled = false then (none, st0)
  else
    let st := cleanup st0 now false
    match (List.range st.num_layers).find?
        (fun i => (List.lookup key (st.cache_layers.getD i [])).isSome) with
    | none => (none, { st with misses := st.misses + 1 })
    | some i =>
      match List.lookup key (st.cache_layers.getD i []) with
      | none => (none, { st with misses := st.misses + 1 })
      | some item =>
        if item.isExpired now then
          let layersD := st.cache_layers.set i (dDel (st.cache_layers.getD i []) key)
          (none, { st with cache_layers := layersD, misses := st.misses + 1 })
        else
          let item2 := { item with
            last_accessed := now
            access_count := item.access_count + 1 }
          let layers2 :=
            st.cache_layers.set i (dSet (st.cache_layers.getD i []) key item2)
          let layers3 := updateItemLayer st.num_layers layers2 item2 now
          (some item2.value, { st with cache_layers := layers3, hits := st.hits + 1 })

/-- `CacheItem.__init__` followed by the predicted-score and layer
assignments of `set`. -/
def newCacheItem (key value : String) (now t target ps : Nat) : CacheItemM :=
  { key := key, value := value, created_at := now, last_accessed := now,
    access_count := 1, ttl := t, layer := target, psTenths := ps }

/-- `LiquidCache.set`: new item (`ttl or default_ttl`, so an explicit 0
falls back to the default; predicted items carry score 0.8) placed into
layer 1 when predicted, else layer min(2, L-1); `none` models the
`IndexError` when that layer does not exist; a final forced cleanup runs
when the size limit is exceeded. -/
def cacheSet (st0 : LiquidCacheState) (now : Nat) (key value : String)
    (ttl : Option Nat) (predicted : Bool) : Option LiquidCacheState :=
  if st0.enabled = false then some st0
  else
    let st := cleanup st0 now false
    let t := match ttl with
      | none => st.default_ttl
      | some 0 => st.default_ttl
      | some tv => tv
    let target := if predicted then 1 else min 2 (st.num_layers - 1)
    if target < st.num_layers then
      let item := newCacheItem key value now t target (if predicted then 8 else 0)
      let st2 := { st with cache_layers :=
        st.cache_layers.set target (dSet (st.cache_layers.getD target []) key item) }
      some (if totalSize st2.cache_layers > st2.max_size
        then cleanup st2 now true else st2)
    else none

/-- `json.dumps(params, sort_keys=True)` as a canonical fingerprint:
entries sorted by key, serialized with `pyStrOf`.  The MD5 applied on top
in `_generate_key` is a collision-free fingerprint and is idealized away. -/
def canonParams (params : List (String × PyVal)) : String :=
  (isortLe (fun a b => chListLe a.1.data b.1.data) params).foldl
    (fun acc p => acc ++ p.1 ++ "=" ++ pyStrOf p.2 ++ ";") ""

/-- `LiquidCache._generate_key` (MD5 idealized, see `canonParams`). -/
def generateKey (queryType : String) (params : List (String × PyVal)) :
    String :=
  queryType ++ ":" ++ canonParams params

/-- `LiquidCache._extract_pattern`: the coarse parameters only. -/
def extractPattern (queryType : String) (params : List (String × PyVal)) :
    String :=
  queryType ++ ":" ++ canonParams (params.filter (fun p =>
    p.1 ∈ (["cell_key", "collection", "type", "limit", "sort"] : List String)))

/-- `LiquidCache._update_patterns`: create or update the pattern record,
credit the transition from the previously observed pattern, append to the
bounded history.  (`_save_patterns` every 100 observations writes a file
only.)  First half: create the pattern record or update it in place. -/
def patPhase1 (qps : List (String × QueryPatternM)) (now : Nat)
    (pattern : String) : List (String × QueryPatternM) :=
  match List.lookup pattern qps with
  | none => qps ++ [(pattern, newQueryPattern pattern now)]
  | some _ => assocUpdate qps pattern (fun p => p.update now)

/-- Second half of `_update_patterns`: credit the transition from the
last observed pattern, when there is one and it has a record. -/
def patPhase2 (qps : List (String × QueryPatternM)) (lastQ : Option String)
    (pattern : String) : List (String × QueryPatternM) :=
  match lastQ with
  | none => qps
  | some lastP =>
    match List.lookup lastP qps with
    | none => qps
    | some _ => assocUpdate qps lastP (fun p => addNextPattern p pattern)

/-- `LiquidCache._update_patterns`, assembled from the two phases. -/
def updatePatterns (st : LiquidCacheState) (now : Nat) (pattern : String) :
    LiquidCacheState :=
  let qps := patPhase1 st.query_patterns now pattern
  let qps2 := patPhase2 qps st.last_queries.getLast? pattern
  let lq := st.last_queries ++ [pattern]
  let lq2 := if lq.length > st.max_pattern_history then lq.drop 1 else lq
  { st with query_patterns := qps2, last_queries := lq2 }

/-- `LiquidCache.register_query` without a preload `load_func` (that
path only spawns a background thread): returns the generated key and the
new state (`none` models a failing `set`). -/
def register_query (st : LiquidCacheState) (now : Nat) (queryType : String)
    (params : List (String × PyVal)) (result : Option String) :
    String × Option LiquidCacheState :=
  if st.enabled = false then ("", some st)
  else
    let key := generateKey queryType params
    let pattern := extractPattern queryType params
    let st1 := updatePatterns st now pattern
    match result with
    | none => (key, some st1)
    | some v => (key, cacheSet st1 now key v none false)

/-- `P.count` as observed through the state (an unseen pattern counts 0). -/
def patternCount (st : LiquidCacheState) (p : String) : Nat :=
  match List.lookup p st.query_patterns with
  | some q => q.count
  | none => 0

/-- `P.successors[Q]` as observed through the state. -/
def successorCount (st : LiquidCacheState) (p q : String) : Nat :=
  match List.lookup p st.query_patterns with
  | some qp => (List.lookup q qp.next_patterns).getD 0
  | none => 0

/-! ### Claim C6 -/

/-- The failing execution for claim C6: insert `k = v1` (layer 2 of a
3-layer cache), read it five times within the same second (the fifth
access promotes it to layer 1), overwrite with `k = v2` (the new item is
placed in layer 2, the stale copy is not removed), then read `k`. -/
def staleReadTrace : Option (Option String) :=
  match cacheSet (initCache 0 3 1000 3600) 0 "k" "v1" none false with
  | none => none
  | some st1 =>
    let st2 := (cacheGet st1 0 "k").2
    let st3 := (cacheGet st2 0 "k").2
    let st4 := (cacheGet st3 0 "k").2
    let st5 := (cacheGet st4 0 "k").2
    let st6 := (cacheGet st5 0 "k").2
    match cacheSet st6 0 "k" "v2" none false with
    | none => none
    | some st7 => some (cacheGet st7 0 "k").1

/-- Claim C6 fails on the code: after overwriting `k` with `v2`, `get(k)`
returns the unexpired STALE value `v1` — `set` inserts the fresh item
into layer min(2, L-1) without removing the copy that promotion left in
a hotter layer, and `get` returns the first copy found scanning from
layer 0.  (`delete` scans all layers; `set` does not.) -/
theorem C6_stale_read_after_overwrite :
    staleReadTrace = some (some "v1") ∧ ("v1" : String) ≠ "v2" := by
  refine ⟨by decide, by decide⟩

/-! ### Claim C7 -/

theorem getD_set_self : ∀ (l : List α) (i : Nat) (x d : α),
    i < l.length → (l.set i x).getD i d = x
  | [], _, _, _, h => absurd h (by simp)
  | a :: t, 0, x, d, _ => rfl
  | a :: t, i + 1, x, d, h => by
    simp only [List.set]
    exact getD_set_self t i x d (by simpa using h)

theorem lookup_dSet_self : ∀ (d : CacheDict) (k : String) (v : CacheItemM),
    List.lookup k (dSet d k v) = some v
  | [], k, v => by simp [dSet, List.lookup_cons]
  | (a, w) :: rest, k, v => by
    simp only [dSet]
    by_cases h : (a == k) = true
    · have ha : a = k := eq_of_beq h
      subst ha
      simp [List.lookup_cons]
    · rw [if_neg (by simpa using h)]
      have hk : (k == a) = false := by
        have hne : ¬ a = k := fun he => h (by simp [he])
        exact beq_eq_false_iff_ne.mpr (fun he => hne he.symm)
      simp [List.lookup_cons, hk]
      exact lookup_dSet_self rest k v

theorem dSet_length_le : ∀ (d : CacheDict) (k : String) (v : CacheItemM),
    (dSet d k v).length ≤ d.length + 1
  | [], _, _ => by simp [dSet]
  | (a, w) :: rest, k, v => by
    simp only [dSet]
    split
    · simp
    · simpa using Nat.succ_le_succ (dSet_length_le rest k v)

theorem totalSize_set : ∀ (l : List CacheDict) (i : Nat) (nd : CacheDict),
    i < l.length →
    totalSize (l.set i nd) + (l.getD i []).length = totalSize l + nd.length
  | [], _, _, h => absurd h (by simp)
  | a :: t, 0, nd, _ => by
    simp only [List.set, totalSize, List.map_cons, List.sum_cons, List.getD]
    simp
    omega
  | a :: t, i + 1, nd, h => by
    simp only [List.set, totalSize, List.map_cons, List.sum_cons]
    have ih := totalSize_set t i nd (by simpa using h)
    simp only [totalSize] at ih
    have hgd : (a :: t).getD (i + 1) [] = t.getD i [] := rfl
    rw [hgd]
    omega

/-- Claim C7, amended: a successful insert places a predicted entry in
layer 1 and a non-predicted entry in layer min(2, L-1) — which is the
coldest non-zero layer only when L ≤ 3.  Stated for a cache inside its
cleanup interval and under capacity, so the insert itself is the only
state change. -/
theorem C7_insert_layer (st : LiquidCacheState) (now : Nat)
    (key value : String) (ttl : Option Nat) (predicted : Bool)
    (hen : st.enabled = true)
    (hL : 2 ≤ st.num_layers)
    (hlen : st.cache_layers.length = st.num_layers)
    (hclean : now - st.last_cleanup < st.cleanup_interval)
    (hsize : totalSize st.cache_layers < st.max_size) :
    ∃ st2, cacheSet st now key value ttl predicted = some st2 ∧
      List.lookup key (st2.cache_layers.getD
          (if predicted then 1 else min 2 (st.num_layers - 1)) []) =
        some (newCacheItem key value now
          (match ttl with
           | none => st.default_ttl
           | some 0 => st.default_ttl
           | some tv => tv)
          (if predicted then 1 else min 2 (st.num_layers - 1))
          (if predicted then 8 else 0)) := by
  generalize htv : (match ttl with
    | none => st.default_ttl
    | some 0 => st.default_ttl
    | some tv => tv) = tval
  have hcl : cleanup st now false = st := by
    unfold cleanup
    rw [if_pos ⟨rfl, hclean⟩]
  have htl : (if predicted then 1 else min 2 (st.num_layers - 1)) <
      st.num_layers := by
    cases predicted <;> simp <;> omega
  have htll : (if predicted then 1 else min 2 (st.num_layers - 1)) <
      st.cache_layers.length := by rw [hlen]; exact htl
  have hsz : totalSize (st.cache_layers.set
      (if predicted then 1 else min 2 (st.num_layers - 1))
      (dSet (st.cache_layers.getD
          (if predicted then 1 else min 2 (st.num_layers - 1)) []) key
        (newCacheItem key value now tval
          (if predicted then 1 else min 2 (st.num_layers - 1))
          (if predicted then 8 else 0)))) ≤ st.max_size := by
    have h1 := totalSize_set st.cache_layers
      (if predicted then 1 else min 2 (st.num_layers - 1))
      (dSet (st.cache_layers.getD
          (if predicted then 1 else min 2 (st.num_layers - 1)) []) key
        (newCacheItem key value now tval
          (if predicted then 1 else min 2 (st.num_layers - 1))
          (if predicted then 8 else 0))) htll
    have h2 := dSet_length_le (st.cache_layers.getD
        (if predicted then 1 else min 2 (st.num_layers - 1)) []) key
      (newCacheItem key value now tval
        (if predicted then 1 else min 2 (st.num_layers - 1))
        (if predicted then 8 else 0))
    omega
  refine ⟨{ st with cache_layers := st.cache_layers.set
                      (if predicted then 1 else min 2 (st.num_layers - 1))
                      (dSet (st.cache_layers.getD
                          (if predicted then 1 else min 2 (st.num_layers - 1)) []) key
                        (newCacheItem key value now tval
                          (if predicted then 1 else min 2 (st.num_layers - 1))
                          (if predicted then 8 else 0))) }, ?_, ?_⟩
  · unfold cacheSet
    rw [if_neg (by simp [hen]), hcl]
    dsimp only
    rw [htv, if_pos htl, if_neg (by omega)]
  · rw [getD_set_self _ _ _ _ htll]
    exact lookup_dSet_self _ _ _

/-- Witness for C7 (amended), on a fresh 3-layer cache: a predicted
insert lands in layer 1 and a plain insert lands in layer
min(2, 3-1) = 2. -/
theorem C7_insert_layer_witness :
    (∃ st2, cacheSet (initCache 0 3 1000 3600) 1 "k" "v" none true = some st2 ∧
      List.lookup "k" (st2.cache_layers.getD 1 []) =
        some (newCacheItem "k" "v" 1 3600 1 8)) ∧
    (∃ st2, cacheSet (initCache 0 3 1000 3600) 1 "k" "v" none false = some st2 ∧
      List.lookup "k" (st2.cache_layers.getD 2 []) =
        some (newCacheItem "k" "v" 1 3600 2 0)) := by
  constructor
  · exact C7_insert_layer (initCache 0 3 1000 3600) 1 "k" "v" none true
      (by decide) (by decide) (by decide) (by decide) (by decide)
  · exact C7_insert_layer (initCache 0 3 1000 3600) 1 "k" "v" none false
      (by decide) (by decide) (by decide) (by decide) (by decide)

/-- Counterexample to claim C7 as stated: in a 4-layer cache a
non-predicted insert goes to layer min(2, 3) = 2, not to the coldest
non-zero layer L-1 = 3. -/
theorem C7_counterexample_four_layers :
    cacheSet (initCache 0 4 1000 3600) 0 "k" "v" none false =
      some { initCache 0 4 1000 3600 with
        cache_layers := [[], [], [("k", newCacheItem "k" "v" 0 3600 2 0)], []] } ∧
    (2 : Nat) ≠ 4 - 1 := by
  refine ⟨by decide, by decide⟩

/-! ### Claim C8 -/

theorem lookup_append_one [BEq α] : ∀ (l : List (α × β)) (q k : α) (v : β),
    List.lookup q (l ++ [(k, v)]) =
      (match List.lookup q l with
       | some x => some x
       | none => if q == k then some v else none)
  | [], q, k, v => by
    cases h : q == k <;> simp [List.lookup_cons, h]
  | (a, w) :: rest, q, k, v => by
    simp only [List.cons_append, List.lookup_cons]
    cases h : q == a
    · exact lookup_append_one rest q k v
    · rfl

theorem lookup_assocUpdate_self :
    ∀ (l : List (String × QueryPatternM)) (k : String)
      (f : QueryPatternM → QueryPatternM),
    List.lookup k (assocUpdate l k f) = (List.lookup k l).map f
  | [], _, _ => rfl
  | (a, p) :: rest, k, f => by
    simp only [assocUpdate]
    by_cases h : (a == k) = true
    · have ha : a = k := eq_of_beq h
      subst ha
      simp [List.lookup_cons]
    · rw [if_neg (by simpa using h)]
      have hk : (k == a) = false := by
        have hne : ¬ a = k := fun he => h (by simp [he])
        exact beq_eq_false_iff_ne.mpr (fun he => hne he.symm)
      simp [List.lookup_cons, hk]
      exact lookup_assocUpdate_self rest k f

theorem lookup_assocUpdate_ne :
    ∀ (l : List (String × QueryPatternM)) (k : String)
      (f : QueryPatternM → QueryPatternM) (q : String), q ≠ k →
    List.lookup q (assocUpdate l k f) = List.lookup q l
  | [], _, _, _, _ => rfl
  | (a, p) :: rest, k, f, q, hqk => by
    simp only [assocUpdate]
    by_cases h : (a == k) = true
    · have ha : a = k := eq_of_beq h
      subst ha
      have hq : (q == a) = false := beq_eq_false_iff_ne.mpr hqk
      simp [List.lookup_cons, hq]
    · rw [if_neg (by simpa using h)]
      simp only [List.lookup_cons]
      cases hqa : q == a
      · exact lookup_assocUpdate_ne rest k f q hqk
      · rfl

theorem lookup_bumpAssoc_self : ∀ (l : List (String × Nat)) (k : String),
    List.lookup k (bumpAssoc l k) = some ((List.lookup k l).getD 0 + 1)
  | [], k => by simp [bumpAssoc, List.lookup_cons]
  | (a, n) :: rest, k => by
    simp only [bumpAssoc]
    by_cases h : (a == k) = true
    · have ha : a = k := eq_of_beq h
      subst ha
      simp [List.lookup_cons]
    · rw [if_neg (by simpa using h)]
      have hk : (k == a) = false := by
        have hne : ¬ a = k := fun he => h (by simp [he])
        exact beq_eq_false_iff_ne.mpr (fun he => hne he.symm)
      simp [List.lookup_cons, hk]
      exact lookup_bumpAssoc_self rest k

theorem lookup_bumpAssoc_ne : ∀ (l : List (String × Nat)) (k q : String),
    q ≠ k → List.lookup q (bumpAssoc l k) = List.lookup q l
  | [], k, q, hqk => by
    have hq : (q == k) = false := beq_eq_false_iff_ne.mpr hqk
    simp [bumpAssoc, List.lookup_cons, hq]
  | (a, n) :: rest, k, q, hqk => by
    simp only [bumpAssoc]
    by_cases h : (a == k) = true
    · have ha : a = k := eq_of_beq h
      subst ha
      have hq : (q == a) = false := beq_eq_false_iff_ne.mpr hqk
      simp [List.lookup_cons, hq]
    · rw [if_neg (by simpa using h)]
      simp only [List.lookup_cons]
      cases hqa : q == a
      · exact lookup_bumpAssoc_ne rest k q hqk
      · rfl

/-- Count as read off a pattern list. -/
def countOfList (qps : List (String × QueryPatternM)) (q : String) : Nat :=
  match List.lookup q qps with
  | some p => p.count
  | none => 0

/-- Successor count as read off a pattern list. -/
def succOfList (qps : List (String × QueryPatternM)) (q r : String) : Nat :=
  match List.lookup q qps with
  | some p => (List.lookup r p.next_patterns).getD 0
  | none => 0

theorem countOfList_phase1 (qps : List (String × QueryPatternM)) (now : Nat)
    (pat q : String) :
    countOfList (patPhase1 qps now pat) q =
      countOfList qps q + (if q = pat then 1 else 0) := by
  unfold patPhase1 countOfList
  by_cases hq : q = pat
  · subst hq
    cases h : List.lookup q qps with
    | none =>
      rw [lookup_append_one, h]
      simp [newQueryPattern]
    | some p0 =>
      rw [lookup_assocUpdate_self, h]
      simp [QueryPatternM.update]
  · cases h : List.lookup pat qps with
    | none =>
      rw [lookup_append_one]
      have hbq : (q == pat) = false := beq_eq_false_iff_ne.mpr hq
      cases hql : List.lookup q qps <;> simp [hql, hbq, hq]
    | some p0 =>
      rw [lookup_assocUpdate_ne _ _ _ _ hq]
      simp [hq]

theorem countOfList_phase2 (qps : List (String × QueryPatternM))
    (lastQ : Option String) (pat q : String) :
    countOfList (patPhase2 qps lastQ pat) q = countOfList qps q := by
  cases lastQ with
  | none => rfl
  | some lastP =>
    cases h : List.lookup lastP qps with
    | none => simp only [patPhase2, h]
    | some p0 =>
      simp only [patPhase2, h]
      unfold countOfList
      by_cases hq : q = lastP
      · subst hq
        rw [lookup_assocUpdate_self, h]
        simp [addNextPattern]
      · rw [lookup_assocUpdate_ne _ _ _ _ hq]

theorem succOfList_phase1 (qps : List (String × QueryPatternM)) (now : Nat)
    (pat q r : String) :
    succOfList (patPhase1 qps now pat) q r = succOfList qps q r := by
  unfold patPhase1 succOfList
  by_cases hq : q = pat
  · subst hq
    cases h : List.lookup q qps with
    | none =>
      rw [lookup_append_one, h]
      simp [newQueryPattern]
    | some p0 =>
      rw [lookup_assocUpdate_self, h]
      simp [QueryPatternM.update]
  · cases h : List.lookup pat qps with
    | none =>
      rw [lookup_append_one]
      have hbq : (q == pat) = false := beq_eq_false_iff_ne.mpr hq
      cases hql : List.lookup q qps <;> simp [hql, hbq]
    | some p0 =>
      rw [lookup_assocUpdate_ne _ _ _ _ hq]

theorem succOfList_phase2 (qps : List (String × QueryPatternM))
    (lastP pat q r : String)
    (hmem : (List.lookup lastP qps).isSome = true) :
    succOfList (patPhase2 qps (some lastP) pat) q r =
      succOfList qps q r + (if q = lastP ∧ r = pat then 1 else 0) := by
  obtain ⟨p0, hp0⟩ := Option.isSome_iff_exists.mp hmem
  simp only [patPhase2, hp0]
  unfold succOfList
  by_cases hq : q = lastP
  · subst hq
    rw [lookup_assocUpdate_self, hp0]
    dsimp only [Option.map, addNextPattern]
    by_cases hr : r = pat
    · subst hr
      rw [lookup_bumpAssoc_self]
      simp
    · rw [lookup_bumpAssoc_ne _ _ _ hr]
      simp [hr]
  · rw [lookup_assocUpdate_ne _ _ _ _ hq]
    simp [hq]

theorem lookup_phase1_self (qps : List (String × QueryPatternM)) (now : Nat)
    (pat : String) :
    (List.lookup pat (patPhase1 qps now pat)).isSome = true := by
  unfold patPhase1
  cases h : List.lookup pat qps with
  | none =>
    rw [lookup_append_one, h]
    simp
  | some p0 =>
    rw [lookup_assocUpdate_self, h]
    rfl

theorem lookup_phase2_isSome (qps : List (String × QueryPatternM))
    (lastQ : Option String) (pat q : String)
    (h : (List.lookup q qps).isSome = true) :
    (List.lookup q (patPhase2 qps lastQ pat)).isSome = true := by
  cases lastQ with
  | none => exact h
  | some lastP =>
    cases hl : List.lookup lastP qps with
    | none => simpa only [patPhase2, hl] using h
    | some p0 =>
      simp only [patPhase2, hl]
      by_cases hq : q = lastP
      · subst hq
        rw [lookup_assocUpdate_self, hl]
        rfl
      · rw [lookup_assocUpdate_ne _ _ _ _ hq]
        exact h

theorem updatePatterns_getLast (st : LiquidCacheState) (now : Nat)
    (pat : String) (hhist : 1 ≤ st.max_pattern_history) :
    (updatePatterns st now pat).last_queries.getLast? = some pat := by
  unfold updatePatterns
  dsimp only
  split
  · rename_i hlen
    cases hl : st.last_queries with
    | nil =>
      rw [hl] at hlen
      simp at hlen
      omega
    | cons a as =>
      simp only [List.cons_append, List.drop_succ_cons, List.drop_zero]
      exact List.getLast?_concat _
  · exact List.getLast?_concat _

theorem lookup_phase1_isSome (qps : List (String × QueryPatternM))
    (now : Nat) (pat q : String)
    (h : (List.lookup q qps).isSome = true) :
    (List.lookup q (patPhase1 qps now pat)).isSome = true := by
  unfold patPhase1
  cases hp : List.lookup pat qps with
  | none =>
    rw [lookup_append_one]
    obtain ⟨x, hx⟩ := Option.isSome_iff_exists.mp h
    simp [hx]
  | some p0 =>
    by_cases hq : q = pat
    · subst hq
      rw [lookup_assocUpdate_self, hp]
      rfl
    · rw [lookup_assocUpdate_ne _ _ _ _ hq]
      exact h

/-- One `_update_patterns` call adds exactly one to the observed
pattern's count and leaves every other count unchanged. -/
theorem patternCount_updatePatterns (st : LiquidCacheState) (now : Nat)
    (pat q : String) :
    patternCount (updatePatterns st now pat) q =
      patternCount st q + (if q = pat then 1 else 0) := by
  have h1 : patternCount (updatePatterns st now pat) q =
      countOfList (patPhase2 (patPhase1 st.query_patterns now pat)
        st.last_queries.getLast? pat) q := rfl
  rw [h1, countOfList_phase2, countOfList_phase1]
  rfl

/-- A second `_update_patterns` call (pattern `Pn` right after `P`) adds
exactly one to `P.successors[Pn]` and leaves every other successor count
unchanged. -/
theorem successorCount_second (st : LiquidCacheState) (now1 now2 : Nat)
    (P Pn q r : String) (hhist : 1 ≤ st.max_pattern_history) :
    successorCount (updatePatterns (updatePatterns st now1 P) now2 Pn) q r =
      successorCount (updatePatterns st now1 P) q r +
        (if q = P ∧ r = Pn then 1 else 0) := by
  have hlast := updatePatterns_getLast st now1 P hhist
  have hq1 : (updatePatterns st now1 P).query_patterns =
      patPhase2 (patPhase1 st.query_patterns now1 P)
        st.last_queries.getLast? P := rfl
  have hPsome : (List.lookup P
      (updatePatterns st now1 P).query_patterns).isSome = true := by
    rw [hq1]
    exact lookup_phase2_isSome _ _ _ _ (lookup_phase1_self _ _ _)
  have h1 : successorCount
      (updatePatterns (updatePatterns st now1 P) now2 Pn) q r =
      succOfList (patPhase2
        (patPhase1 (updatePatterns st now1 P).query_patterns now2 Pn)
        (updatePatterns st now1 P).last_queries.getLast? Pn) q r := rfl
  rw [h1, hlast,
    succOfList_phase2 _ _ _ _ _ (lookup_phase1_isSome _ _ _ _ hPsome),
    succOfList_phase1]
  rfl

/-- C8: with the cache enabled and a positive history bound (as set by
`__init__`), each observation of a pattern `P` increases `P.count` by
exactly 1 (an unseen pattern counting 0 beforehand) and leaves every
other count unchanged; observing `P` and then `Pn` increases
`P.successors[Pn]` by exactly 1 and leaves every other successor count
unchanged; and `register_query` with no result performs exactly this
pattern update on the state. -/
theorem C8_pattern_learning_monotone (st : LiquidCacheState)
    (now1 now2 : Nat) (P Pn : String)
    (hen : st.enabled = true) (hhist : 1 ≤ st.max_pattern_history) :
    (∀ q, patternCount (updatePatterns st now1 P) q =
        patternCount st q + (if q = P then 1 else 0)) ∧
    (∀ q, patternCount (updatePatterns (updatePatterns st now1 P) now2 Pn) q =
        patternCount (updatePatterns st now1 P) q +
          (if q = Pn then 1 else 0)) ∧
    successorCount (updatePatterns (updatePatterns st now1 P) now2 Pn) P Pn =
      successorCount (updatePatterns st now1 P) P Pn + 1 ∧
    (∀ q r, ¬(q = P ∧ r = Pn) →
      successorCount (updatePatterns (updatePatterns st now1 P) now2 Pn) q r =
        successorCount (updatePatterns st now1 P) q r) ∧
    (∀ (qt : String) (params : List (String × PyVal)),
      (register_query st now1 qt params none).2 =
        some (updatePatterns st now1 (extractPattern qt params))) := by
  refine ⟨fun q => patternCount_updatePatterns st now1 P q,
    fun q => patternCount_updatePatterns _ now2 Pn q, ?_, ?_, ?_⟩
  · rw [successorCount_second st now1 now2 P Pn P Pn hhist]
    simp
  · intro q r hqr
    rw [successorCount_second st now1 now2 P Pn q r hhist]
    simp [hqr]
  · intro qt params
    unfold register_query
    rw [if_neg (by simp [hen])]

/-- Witness for C8 on a freshly initialised 3-layer cache: observing
pattern "a" then pattern "b". -/
theorem C8_pattern_learning_monotone_witness :
    patternCount (updatePatterns (initCache 0 3 10 60) 5 "a") "a" =
      patternCount (initCache 0 3 10 60) "a" + 1 ∧
    patternCount (updatePatterns (updatePatterns (initCache 0 3 10 60) 5 "a")
        9 "b") "a" =
      patternCount (updatePatterns (initCache 0 3 10 60) 5 "a") "a" ∧
    successorCount (updatePatterns (updatePatterns (initCache 0 3 10 60) 5 "a")
        9 "b") "a" "b" =
      successorCount (updatePatterns (initCache 0 3 10 60) 5 "a") "a" "b" + 1 ∧
    successorCount (updatePatterns (updatePatterns (initCache 0 3 10 60) 5 "a")
        9 "b") "b" "a" =
      successorCount (updatePatterns (initCache 0 3 10 60) 5 "a") "b" "a" ∧
    (register_query (initCache 0 3 10 60) 5 "get"
        [("cell_key", PyVal.prim (Scalar.str "c"))] none).2 =
      some (updatePatterns (initCache 0 3 10 60) 5
        (extractPattern "get" [("cell_key", PyVal.prim (Scalar.str "c"))])) := by
  have h := C8_pattern_learning_monotone (initCache 0 3 10 60) 5 9 "a" "b"
    rfl (by decide)
  refine ⟨by simpa using h.1 "a", by simpa using h.2.1 "a", h.2.2.1,
    h.2.2.2.1 "b" "a" (by decide),
    h.2.2.2.2 "get" [("cell_key", PyVal.prim (Scalar.str "c"))]⟩

end HiveDB
